import Mathlib

/-!
# stmboot: a shallow embedding of `stmboot.c`

The serial link is modelled as a `World`: finite scripts giving the result of
each successive `select`, `read` and `write` system call, the stream of bytes
the device sends, the bytes already delivered to the device, the warnings
logged on stderr and the reports printed on stdout.  Every `do ... while`
loop of the C source is a function that recurses on a fuel counter and
returns `none` when the fuel is used up.
-/

namespace Stmboot

/-! ## Constants of the source -/

/-! ### `enum to_boot` -/

/-- Opcode GET. -/
def c_get : Nat := 0x00
/-- Opcode GET_VERSION. -/
def c_getv : Nat := 0x01
/-- Opcode GET_ID. -/
def c_get_id : Nat := 0x02
/-- Opcode READ_MEMORY. -/
def c_read : Nat := 0x11
/-- Opcode GO. -/
def c_go : Nat := 0x21
/-- Opcode WRITE_MEMORY. -/
def c_write : Nat := 0x31
/-- Opcode ERASE. -/
def c_erase : Nat := 0x43
/-- Opcode WRITE_PROTECT. -/
def c_w_prot : Nat := 0x63
/-- Opcode WRITE_UNPROTECT. -/
def c_w_unprot : Nat := 0x73
/-- Opcode READOUT_PROTECT. -/
def c_r_prot : Nat := 0x82
/-- Opcode READOUT_UNPROTECT. -/
def c_r_unprot : Nat := 0x92
/-- The SYNC byte. -/
def i_start : Nat := 0x7F

/-! ### `enum from_boot` -/

/-- The byte by which the device acknowledges. -/
def b_ack : Nat := 0x79
/-- The byte by which the device rejects. -/
def b_nack : Nat := 0x1F

/-! ### `enum returns` -/

/-- Failure of a system call. -/
def kERR : Int := -3
/-- Unexpected data. -/
def kUNEX : Int := -2
/-- Nothing ready within the timeout. -/
def kTIME : Int := -1
/-- Acknowledged. -/
def kACK : Int := 0
/-- Rejected. -/
def kNACK : Int := 1

/-! ## The environment -/

/-- One call of the `WARN` macro. -/
inductive Warn where
  | select_failed
  | read_failed
  | junk_byte (tmp : Nat)
  | read_returned (rret : Int)
  | select_error
  | send_command
  | send_command_returned (ret : Int)
  | s_read_numbytes (ret : Int)
  | s_read_returned (ret : Int)
  | wait_ack_returned (ret : Int)
  | malloc
  deriving DecidableEq, Repr

/-- One `printf` report of a command. Bytes read from a buffer position that
was never filled are `none`. -/
inductive Report where
  | getv (version option1 option2 : Option Nat)
  | get (version : Option Nat) (commands : List (Option Nat))
  | get_id (pid : Option Nat) (rest : List (Option Nat))
  deriving DecidableEq, Repr

/-- State of the link and of the process output.
* `sel`: results of the successive `select` calls (0: nothing ready, 1: ready,
  anything else: failure);
* `rd`: the successive `read` calls, `none` for a failing read (-1) and
  `some k` when at most `k` bytes can be taken at that moment;
* `inp`: the bytes sent by the device and not yet read;
* `wr`: the successive `write` calls, `none` for a failing write (-1) and
  `some k` when the channel accepts at most `k` bytes at that moment;
* `out`: the bytes delivered to the device so far;
* `heap`: the successive `malloc` calls, `true` for a non-null result;
* `warns`, `stdout`: what was logged and printed so far.
A call made after its script is exhausted fails (-1, or a null pointer). -/
structure World where
  sel : List Int
  rd : List (Option Nat)
  inp : List Nat
  wr : List (Option Nat)
  out : List Nat
  heap : List Bool
  warns : List Warn
  stdout : List Report
  deriving DecidableEq, Repr

/-- The call `select(fd + 1, &fds, NULL, NULL, &timeout)`. -/
def sys_select (w : World) : Int × World :=
  match w.sel with
  | [] => (-1, w)
  | r :: rest => (r, { w with sel := rest })

/-- The call `read(fd, buf, n)`: the return value, the bytes stored in `buf`
and the new state. -/
def sys_read (w : World) (n : Nat) : Int × List Nat × World :=
  match w.rd with
  | [] => (-1, [], w)
  | none :: rest => (-1, [], { w with rd := rest })
  | some k :: rest =>
    ((w.inp.take (min k n)).length, w.inp.take (min k n),
      { w with rd := rest, inp := w.inp.drop (min k n) })

/-- The call `write(fd, buf, len)` where `buf` holds the `len` bytes. -/
def sys_write (w : World) (buf : List Nat) : Int × World :=
  match w.wr with
  | [] => (-1, w)
  | none :: rest => (-1, { w with wr := rest })
  | some k :: rest =>
    ((buf.take k).length, { w with wr := rest, out := w.out ++ buf.take k })

/-- The call `malloc(size)`: whether the result is non-null. -/
def sys_malloc (w : World) : Bool × World :=
  match w.heap with
  | [] => (false, w)
  | ok :: rest => (ok, { w with heap := rest })

/-- Record one `WARN`. -/
def warn (w : World) (e : Warn) : World :=
  { w with warns := w.warns ++ [e] }

/-- Record one `printf` report. -/
def print (w : World) (r : Report) : World :=
  { w with stdout := w.stdout ++ [r] }

/-- The idle link: every script exhausted, nothing sent, logged or printed. -/
def World.idle : World :=
  { sel := [], rd := [], inp := [], wr := [], out := [], heap := [], warns := [], stdout := [] }

/-! ## The functions of the source -/

/-- The `for` loop of `gen_check`: `check ^= *pos` over the remaining bytes,
`check` being a `uint8_t`. -/
def gen_check_loop (check : Nat) : List Nat → Nat
  | [] => check
  | b :: rest => gen_check_loop ((check ^^^ b) % 256) rest

/-- Function `gen_check(data, len)`, `data` being the `len` bytes. -/
def gen_check (data : List Nat) : Nat :=
  gen_check_loop 0 data

/-- The loop of `s_read(stb, buf, nbyte)`; `buf` holds the bytes stored so
far, so that the source's `pos` is `buf.length`. Returns the status, the
buffer and the new state. -/
def s_read_loop : Nat → World → Nat → List Nat → Option (Int × List Nat × World)
  | 0, _, _, _ => none
  | fuel + 1, w, nbyte, buf =>
    let s := sys_select w
    if s.1 = 0 then some (kTIME, buf, s.2)
    else if s.1 ≠ 1 then some (kERR, buf, warn s.2 Warn.select_failed)
    else
      let r := sys_read s.2 (nbyte - buf.length)
      if r.1 = -1 then some (kERR, buf, warn r.2.2 Warn.read_failed)
      else if (buf ++ r.2.1).length < nbyte then s_read_loop fuel r.2.2 nbyte (buf ++ r.2.1)
      else some (0, buf ++ r.2.1, r.2.2)

/-- Function `s_read(stb, buf, nbyte)`. -/
def s_read (fuel : Nat) (w : World) (nbyte : Nat) : Option (Int × List Nat × World) :=
  s_read_loop fuel w nbyte []

/-- Function `wait_ack(stb)`. -/
def wait_ack : Nat → World → Option (Int × World)
  | 0, _ => none
  | fuel + 1, w =>
    let s := sys_select w
    if s.1 = 0 then some (kTIME, s.2)
    else if s.1 = 1 then
      let r := sys_read s.2 1
      if r.1 = 1 then
        let tmp := r.2.1.headD 0
        if tmp = b_ack then some (0, r.2.2)
        else if tmp = b_nack then some (1, r.2.2)
        else wait_ack fuel (warn r.2.2 (Warn.junk_byte tmp))
      else wait_ack fuel (warn r.2.2 (Warn.read_returned r.1))
    else some (kERR, warn s.2 Warn.select_error)

/-- The inner loop of `bootloader_init`:
`do { ret = write(stb->fd, &tmp, 1); } while (ret == 0);`. -/
def write_start : Nat → World → Option (Int × World)
  | 0, _ => none
  | fuel + 1, w =>
    let r := sys_write w [i_start]
    if r.1 = 0 then write_start fuel r.2 else some r

/-- Function `bootloader_init(stb)`. -/
def bootloader_init : Nat → World → Option (Int × World)
  | 0, _ => none
  | fuel + 1, w =>
    match write_start (fuel + 1) w with
    | none => none
    | some (ret, w1) =>
      if ret = -1 then some (kERR - 1, w1)
      else
        match wait_ack (fuel + 1) w1 with
        | none => none
        | some (ret, w2) =>
          if ret < 0 then bootloader_init fuel w2 else some (ret, w2)

/-- The value of `~com` for a 32-bit `com`. -/
def bnot32 (com : Nat) : Nat :=
  2 ^ 32 - 1 - com % 2 ^ 32

/-- The array `tmp` of `send_command` and `send_command2` after
`tmp[0] = com; tmp[1] = ~com;`, each entry truncated to a `char`. -/
def command_frame (com : Nat) : List Nat :=
  [com % 256, bnot32 com % 256]

/-- The write loop of `send_command` and `send_command2`:
`do { ret = write(stb->fd, tmp + pos, sizeof(tmp) - pos);`
`if (ret == -1) return ...; pos += ret; } while (pos < sizeof(tmp));`.
Returns the final `pos`, or `none` in its place when a write failed. -/
def write_frame : Nat → World → List Nat → Nat → Option (Option Nat × World)
  | 0, _, _, _ => none
  | fuel + 1, w, tmp, pos =>
    let r := sys_write w (tmp.drop pos)
    if r.1 = -1 then some (none, r.2)
    else if pos + r.1.toNat < tmp.length then write_frame fuel r.2 tmp (pos + r.1.toNat)
    else some (some (pos + r.1.toNat), r.2)

/-- Function `send_command(stb, com)`. -/
def send_command (fuel : Nat) (w : World) (com : Nat) : Option (Int × World) :=
  match write_frame fuel w (command_frame com) 0 with
  | none => none
  | some (none, w1) => some (kERR - 1, w1)
  | some (some _, w1) => wait_ack fuel w1

/-- The outer loop of `send_command2`; `pos` is declared before the loop and
keeps its value from one round to the next. -/
def send_command2_loop : Nat → World → List Nat → Nat → Option (Int × World)
  | 0, _, _, _ => none
  | fuel + 1, w, tmp, pos =>
    match write_frame (fuel + 1) w tmp pos with
    | none => none
    | some (none, w1) => some (kERR - 1, warn w1 Warn.send_command)
    | some (some pos1, w1) =>
      match wait_ack (fuel + 1) w1 with
      | none => none
      | some (aret, w2) =>
        if aret = kTIME then send_command2_loop fuel w2 tmp pos1 else some (aret, w2)

/-- Function `send_command2(stb, com)`. -/
def send_command2 (fuel : Nat) (w : World) (com : Nat) : Option (Int × World) :=
  send_command2_loop fuel w (command_frame com) 0

/-- The loop `do { ret = send_command(stb, com); } while (ret == kTIME);` of
`get_id` and `get_commands`. -/
def send_command_retry : Nat → World → Nat → Option (Int × World)
  | 0, _, _ => none
  | fuel + 1, w, com =>
    match send_command (fuel + 1) w com with
    | none => none
    | some (ret, w1) =>
      if ret = kTIME then send_command_retry fuel w1 com else some (ret, w1)

/-- The value of a byte stored in a (signed) `char`. -/
def char_val (b : Nat) : Int :=
  if b % 256 < 128 then (b % 256 : Nat) else (b % 256 : Nat) - 256

/-- Function `get_id(stb)`. The statuses of both `s_read` calls and of
`wait_ack` are discarded by the source and the result of `malloc` is not
checked. On two paths the source has no defined behaviour and this definition
picks one: when no length byte was stored `len` is unassigned in the source
and is taken as 0 here, and when `malloc` returns a null pointer the source
reads through it while here the bytes are read and reported as for a valid
buffer. Only runs that store a length byte and get a non-null buffer, or that
stop at the opcode phase, follow the source. -/
def get_id (fuel : Nat) (w : World) : Option (Int × World) :=
  match send_command_retry fuel w c_get_id with
  | none => none
  | some (ret, w1) =>
    if ret ≠ 0 then some (ret - 1, warn w1 Warn.send_command)
    else
      match s_read fuel w1 1 with
      | none => none
      | some (_, lenbuf, w2) =>
        let len := char_val (lenbuf.headD 0)
        let m := sys_malloc w2
        match s_read fuel m.2 ((len + 1) % 2 ^ 64).toNat with
        | none => none
        | some (_, data, w3) =>
          match wait_ack fuel w3 with
          | none => none
          | some (_, w4) =>
            some (0, print w4 (Report.get_id data[0]?
              ((List.range len.toNat).map (fun i => data[i + 1]?))))

/-- Function `get_version(stb)`. -/
def get_version (fuel : Nat) (w : World) : Option (Int × World) :=
  match send_command fuel w c_getv with
  | none => none
  | some (ret, w1) =>
    if ret ≠ 0 then some (ret - 1, warn w1 Warn.send_command)
    else
      match s_read fuel w1 3 with
      | none => none
      | some (ret, data, w2) =>
        if ret ≠ 0 then some (-4, warn w2 (Warn.s_read_returned ret))
        else
          match wait_ack fuel w2 with
          | none => none
          | some (ret, w3) =>
            some (0, print (if ret ≠ 0 then warn w3 (Warn.wait_ack_returned ret) else w3)
              (Report.getv data[0]? data[1]? data[2]?))

/-- Function `get_commands(stb)`. -/
def get_commands (fuel : Nat) (w : World) : Option (Int × World) :=
  match send_command_retry fuel w c_get with
  | none => none
  | some (ret, w1) =>
    if ret ≠ 0 then some (ret - 1, warn w1 (Warn.send_command_returned ret))
    else
      match s_read fuel w1 1 with
      | none => none
      | some (ret, nbuf, w2) =>
        if ret ≠ 0 then some (ret - 2, warn w2 (Warn.s_read_numbytes ret))
        else
          let n := nbuf.headD 0
          let m := sys_malloc w2
          if m.1 = false then some (-7, warn m.2 Warn.malloc)
          else
            match s_read fuel m.2 n with
            | none => none
            | some (ret, get_d, w3) =>
              if ret ≠ 0 then some (ret - 3, warn w3 (Warn.s_read_returned ret))
              else
                match wait_ack fuel w3 with
                | none => none
                | some (ret, w4) =>
                  some (0, print (if ret ≠ 0 then warn w4 (Warn.wait_ack_returned ret) else w4)
                    (Report.get get_d[0]?
                      ((List.range' 1 (n - 1)).map (fun i => get_d[i]?))))

/-- The body shared by `cmd_erase_mem`, `cmd_write_mem`, `cmd_go` and
`cmd_read_mem`: `ret = send_command2(stb, com); if (ret) { WARN(...); return ret - 1; }`
followed by `return 0;`. -/
def cmd_body (fuel : Nat) (w : World) (com : Nat) : Option (Int × World) :=
  match send_command2 fuel w com with
  | none => none
  | some (ret, w1) =>
    if ret ≠ 0 then some (ret - 1, warn w1 (Warn.send_command_returned ret))
    else some (0, w1)

/-- Function `cmd_erase_mem(stb, addr, len)`; the opcode it sends is `c_write`. -/
def cmd_erase_mem (fuel : Nat) (w : World) (_addr _len : Nat) : Option (Int × World) :=
  cmd_body fuel w c_write

/-- Function `cmd_write_mem(stb, addr, data, len)`. -/
def cmd_write_mem (fuel : Nat) (w : World) (_addr : Nat) (_data : List Nat) (_len : Nat) :
    Option (Int × World) :=
  cmd_body fuel w c_write

/-- Function `cmd_go(stb, addr)`. -/
def cmd_go (fuel : Nat) (w : World) (_addr : Nat) : Option (Int × World) :=
  cmd_body fuel w c_go

/-- Function `cmd_read_mem(stb, addr)`. -/
def cmd_read_mem (fuel : Nat) (w : World) (_addr : Nat) : Option (Int × World) :=
  cmd_body fuel w c_read

/-! ## Checksum -/

theorem gen_check_loop_append (c : Nat) (xs ys : List Nat) :
    gen_check_loop c (xs ++ ys) = gen_check_loop (gen_check_loop c xs) ys := by
  induction xs generalizing c with
  | nil => rfl
  | cons x xs ih => simp [gen_check_loop, ih]

theorem gen_check_loop_eq_foldl (data : List Nat) (c : Nat) (hc : c < 256)
    (hbytes : ∀ b ∈ data, b < 256) :
    gen_check_loop c data = data.foldl (fun x y => x ^^^ y) c := by
  induction data generalizing c with
  | nil => rfl
  | cons b rest ih =>
    have hb : b < 256 := hbytes b (by simp)
    have hlt : c ^^^ b < 256 := Nat.xor_lt_two_pow (n := 8) hc hb
    simp only [gen_check_loop, List.foldl_cons, Nat.mod_eq_of_lt hlt]
    exact ih (c ^^^ b) hlt (fun x hx => hbytes x (by simp [hx]))

theorem foldl_xor_seed (data : List Nat) (c : Nat) :
    data.foldl (fun x y => x ^^^ y) c = c ^^^ data.foldl (fun x y => x ^^^ y) 0 := by
  induction data generalizing c with
  | nil => simp
  | cons b rest ih =>
    simp only [List.foldl_cons, Nat.zero_xor]
    rw [ih (c ^^^ b), ih b, Nat.xor_assoc]

/-- C1: for every byte sequence `data`, the empty one included, `gen_check`
is the XOR of all its bytes seeded at 0 (so it is 0 on the empty sequence),
XORing every byte of `data` onto its checksum gives 0, and `gen_check` of
`data` followed by its own checksum byte is 0; the last holds for any list. -/
theorem gen_check_append_self (data : List Nat) :
    gen_check [] = 0 ∧
    gen_check (data ++ [gen_check data]) = 0 ∧
    ((∀ b ∈ data, b < 256) →
      gen_check data = data.foldl (fun x y => x ^^^ y) 0 ∧
      data.foldl (fun x y => x ^^^ y) (gen_check data) = 0 ∧
      (data ++ [gen_check data]).foldl (fun x y => x ^^^ y) 0 = 0) := by
  refine ⟨rfl, ?_, ?_⟩
  · unfold gen_check
    rw [gen_check_loop_append]
    simp [gen_check_loop]
  · intro hbytes
    have hfold : gen_check data = data.foldl (fun x y => x ^^^ y) 0 :=
      gen_check_loop_eq_foldl data 0 (by decide) hbytes
    refine ⟨hfold, ?_, ?_⟩
    · rw [foldl_xor_seed, hfold, Nat.xor_self]
    · rw [List.foldl_append, hfold]
      simp

theorem gen_check_append_self_witness :
    gen_check [0x08, 0x00, 0x40, 0x00] = 0x48 ∧
    [0x08, 0x00, 0x40, 0x00].foldl (fun x y => x ^^^ y) (gen_check [0x08, 0x00, 0x40, 0x00])
      = 0 ∧
    gen_check ([0x08, 0x00, 0x40, 0x00] ++ [gen_check [0x08, 0x00, 0x40, 0x00]]) = 0 := by
  have h := gen_check_append_self [0x08, 0x00, 0x40, 0x00]
  have hb := h.2.2 (by decide)
  exact ⟨by rw [hb.1]; rfl, hb.2.1, h.2.1⟩

/-! ## Single steps of `wait_ack` -/

theorem wait_ack_timeout (fuel : Nat) (w : World) (srest : List Int)
    (hsel : w.sel = 0 :: srest) :
    wait_ack (fuel + 1) w = some (kTIME, { w with sel := srest }) := by
  obtain ⟨sel, rd, inp, wr, out, heap, warns, stdout⟩ := w
  simp only at hsel
  subst hsel
  simp [wait_ack, sys_select]

theorem wait_ack_select_error (fuel : Nat) (w : World) (r : Int) (srest : List Int)
    (hsel : w.sel = r :: srest) (h0 : r ≠ 0) (h1 : r ≠ 1) :
    wait_ack (fuel + 1) w = some (kERR, warn { w with sel := srest } Warn.select_error) := by
  obtain ⟨sel, rd, inp, wr, out, heap, warns, stdout⟩ := w
  simp only at hsel
  subst hsel
  simp [wait_ack, sys_select, h0, h1]

theorem wait_ack_ack (fuel : Nat) (w : World) (c : Nat) (srest : List Int)
    (rrest : List (Option Nat)) (irest : List Nat)
    (hsel : w.sel = 1 :: srest) (hrd : w.rd = some (c + 1) :: rrest)
    (hinp : w.inp = b_ack :: irest) :
    wait_ack (fuel + 1) w = some (kACK, { w with sel := srest, rd := rrest, inp := irest }) := by
  obtain ⟨sel, rd, inp, wr, out, heap, warns, stdout⟩ := w
  simp only at hsel hrd hinp
  subst hsel hrd hinp
  simp [wait_ack, sys_select, sys_read, kACK]

theorem wait_ack_nack (fuel : Nat) (w : World) (c : Nat) (srest : List Int)
    (rrest : List (Option Nat)) (irest : List Nat)
    (hsel : w.sel = 1 :: srest) (hrd : w.rd = some (c + 1) :: rrest)
    (hinp : w.inp = b_nack :: irest) :
    wait_ack (fuel + 1) w = some (kNACK, { w with sel := srest, rd := rrest, inp := irest }) := by
  obtain ⟨sel, rd, inp, wr, out, heap, warns, stdout⟩ := w
  simp only at hsel hrd hinp
  subst hsel hrd hinp
  simp [wait_ack, sys_select, sys_read, kNACK, b_nack, b_ack]

theorem wait_ack_junk (fuel : Nat) (w : World) (c x : Nat) (srest : List Int)
    (rrest : List (Option Nat)) (irest : List Nat)
    (hsel : w.sel = 1 :: srest) (hrd : w.rd = some (c + 1) :: rrest)
    (hinp : w.inp = x :: irest) (hack : x ≠ b_ack) (hnack : x ≠ b_nack) :
    wait_ack (fuel + 1) w =
      wait_ack fuel (warn { w with sel := srest, rd := rrest, inp := irest }
        (Warn.junk_byte x)) := by
  obtain ⟨sel, rd, inp, wr, out, heap, warns, stdout⟩ := w
  simp only at hsel hrd hinp
  subst hsel hrd hinp
  simp [wait_ack, sys_select, sys_read, hack, hnack]

/-! ## The response classifier -/

/-- C3: on an input of `junk.length` bytes that are neither 0x79 nor 0x1F
followed by a byte `b` that is one of them, each byte delivered by a ready
one-byte read, `wait_ack` returns kACK for 0x79 and kNACK for 0x1F, consumes
exactly those `junk.length + 1` bytes (and as many `select` and `read`
calls) and logs one junk-byte warning per junk byte, in order. -/
theorem wait_ack_classifies (junk : List Nat) (b : Nat) (w : World) (caps : List Nat)
    (srest : List Int) (rrest : List (Option Nat)) (irest : List Nat) (fuel : Nat)
    (hb : b = 0x79 ∨ b = 0x1F)
    (hjunk : ∀ x ∈ junk, x ≠ 0x79 ∧ x ≠ 0x1F)
    (hcaps : caps.length = junk.length + 1)
    (hsel : w.sel = List.replicate (junk.length + 1) 1 ++ srest)
    (hrd : w.rd = caps.map (fun c => some (c + 1)) ++ rrest)
    (hinp : w.inp = junk ++ b :: irest)
    (hfuel : junk.length < fuel) :
    wait_ack fuel w =
      some (if b = 0x79 then kACK else kNACK,
        { w with sel := srest, rd := rrest, inp := irest,
                 warns := w.warns ++ junk.map Warn.junk_byte }) := by
  induction junk generalizing w caps fuel with
  | nil =>
    obtain ⟨fuel, rfl⟩ : ∃ f, fuel = f + 1 := ⟨fuel - 1, by omega⟩
    obtain ⟨c, caps, rfl⟩ : ∃ c cs, caps = c :: cs := by
      cases caps with
      | nil => simp at hcaps
      | cons c cs => exact ⟨c, cs, rfl⟩
    have hnil : caps = [] := by
      cases caps with
      | nil => rfl
      | cons c cs => simp at hcaps
    subst hnil
    simp only [List.length_nil, Nat.zero_add, List.replicate_one, List.singleton_append,
      List.map_cons, List.map_nil, List.nil_append] at hsel hrd hinp
    rcases hb with rfl | rfl
    · rw [wait_ack_ack fuel w c srest rrest irest hsel hrd hinp]
      simp
    · rw [wait_ack_nack fuel w c srest rrest irest hsel hrd hinp]
      simp
  | cons x junk ih =>
    obtain ⟨fuel, rfl⟩ : ∃ f, fuel = f + 1 := ⟨fuel - 1, by simp at hfuel; omega⟩
    obtain ⟨c, caps, rfl⟩ : ∃ c cs, caps = c :: cs := by
      cases caps with
      | nil => simp at hcaps
      | cons c cs => exact ⟨c, cs, rfl⟩
    have hx := hjunk x (by simp)
    simp only [List.length_cons, List.replicate_succ, List.cons_append, List.map_cons]
      at hsel hrd hinp hcaps hfuel
    rw [wait_ack_junk fuel w c x _ _ _ hsel hrd hinp hx.1 hx.2]
    rw [ih (warn { w with sel := _, rd := _, inp := _ } (Warn.junk_byte x)) caps fuel
      (fun y hy => hjunk y (by simp [hy])) (by omega) (by simp [warn, List.replicate_succ])
      (by simp [warn]) (by simp [warn]) (by omega)]
    simp [warn]

theorem wait_ack_classifies_witness :
    wait_ack 2 { World.idle with sel := [1, 1], rd := [some 1, some 1], inp := [0x55, 0x79] } =
      some (kACK, { World.idle with warns := [Warn.junk_byte 0x55] }) := by
  have h := wait_ack_classifies [0x55] 0x79
    { World.idle with sel := [1, 1], rd := [some 1, some 1], inp := [0x55, 0x79] }
    [0, 0] [] [] [] 2 (by decide) (by decide) rfl rfl rfl rfl (by decide)
  simpa [World.idle] using h

/-! ## The handshake -/

theorem write_start_ok (fuel : Nat) (w : World) (a : Nat) (wrest : List (Option Nat))
    (hwr : w.wr = some (a + 1) :: wrest) :
    write_start (fuel + 1) w = some (1, { w with wr := wrest, out := w.out ++ [i_start] }) := by
  obtain ⟨sel, rd, inp, wr, out, heap, warns, stdout⟩ := w
  simp only at hwr
  subst hwr
  simp [write_start, sys_write]

/-- C4: when every write of the SYNC byte succeeds, the first `k` waits time
out and the next one receives 0x79, `bootloader_init` returns 0 having
written exactly `k + 1` bytes, each 0x7F, and having used exactly `k + 1`
writes and `k + 1` waits. -/
theorem bootloader_init_retries (k : Nat) (w : World) (caps : List Nat) (c : Nat)
    (wrest : List (Option Nat)) (srest : List Int) (rrest : List (Option Nat))
    (irest : List Nat) (fuel : Nat)
    (hcaps : caps.length = k + 1)
    (hwr : w.wr = caps.map (fun a => some (a + 1)) ++ wrest)
    (hsel : w.sel = List.replicate k 0 ++ 1 :: srest)
    (hrd : w.rd = some (c + 1) :: rrest)
    (hinp : w.inp = 0x79 :: irest)
    (hfuel : k < fuel) :
    bootloader_init fuel w =
      some (0, { w with wr := wrest, sel := srest, rd := rrest, inp := irest,
                        out := w.out ++ List.replicate (k + 1) 0x7F }) := by
  induction k generalizing w caps fuel with
  | zero =>
    obtain ⟨fuel, rfl⟩ : ∃ f, fuel = f + 1 := ⟨fuel - 1, by omega⟩
    obtain ⟨a, caps, rfl⟩ : ∃ a cs, caps = a :: cs := by
      cases caps with
      | nil => simp at hcaps
      | cons a cs => exact ⟨a, cs, rfl⟩
    have hnil : caps = [] := by
      cases caps with
      | nil => rfl
      | cons a cs => simp at hcaps
    subst hnil
    simp only [List.map_cons, List.map_nil, List.singleton_append, List.replicate_zero,
      List.nil_append] at hwr hsel
    rw [bootloader_init, write_start_ok fuel w a wrest hwr]
    simp only
    rw [wait_ack_ack fuel _ c srest rrest irest (by simpa using hsel) (by simpa using hrd)
      (by simpa [b_ack] using hinp)]
    simp [kACK, i_start]
  | succ k ih =>
    obtain ⟨fuel, rfl⟩ : ∃ f, fuel = f + 1 := ⟨fuel - 1, by omega⟩
    obtain ⟨a, caps, rfl⟩ : ∃ a cs, caps = a :: cs := by
      cases caps with
      | nil => simp at hcaps
      | cons a cs => exact ⟨a, cs, rfl⟩
    simp only [List.map_cons, List.cons_append, List.replicate_succ, List.length_cons]
      at hwr hsel hcaps
    rw [bootloader_init, write_start_ok fuel w a _ hwr]
    simp only
    rw [wait_ack_timeout fuel _ _ (by simpa using hsel)]
    simp only [kTIME]
    rw [if_neg (by decide), if_pos (by decide)]
    rw [ih _ caps fuel (by omega) (by simp) (by simp) (by simpa using hrd)
      (by simpa using hinp) (by omega)]
    simp [i_start, List.replicate_succ]

theorem bootloader_init_retries_witness :
    bootloader_init 3
        { World.idle with wr := [some 1, some 1, some 1], sel := [0, 0, 1], rd := [some 1],
                          inp := [0x79] } =
      some (0, { World.idle with out := [0x7F, 0x7F, 0x7F] }) := by
  have h := bootloader_init_retries 2
    { World.idle with wr := [some 1, some 1, some 1], sel := [0, 0, 1], rd := [some 1],
                      inp := [0x79] }
    [0, 0, 0] 0 [] [] [] [] 3 rfl rfl rfl rfl rfl (by decide)
  simpa [World.idle] using h

/-! ## The opcode phase -/

theorem wait_ack_keeps_out (fuel : Nat) (w w1 : World) (r : Int)
    (h : wait_ack fuel w = some (r, w1)) : w1.out = w.out ∧ w1.wr = w.wr := by
  induction fuel generalizing w with
  | zero => simp [wait_ack] at h
  | succ fuel ih =>
    obtain ⟨sel, rd, inp, wr, out, heap, warns, stdout⟩ := w
    cases sel with
    | nil =>
      simp [wait_ack, sys_select, warn] at h
      obtain ⟨_, rfl⟩ := h
      simp
    | cons s srest =>
      simp only [wait_ack, sys_select] at h
      split_ifs at h with h0 h1 h2 h3 h4
      · simp at h; obtain ⟨_, rfl⟩ := h; simp
      · simp at h; obtain ⟨_, rfl⟩ := h
        cases rd with
        | nil => simp [sys_read]
        | cons o rrest => cases o <;> simp [sys_read]
      · simp at h; obtain ⟨_, rfl⟩ := h
        cases rd with
        | nil => simp [sys_read]
        | cons o rrest => cases o <;> simp [sys_read]
      · have := ih _ h
        cases rd with
        | nil => simpa [sys_read, warn] using this
        | cons o rrest => cases o <;> simpa [sys_read, warn] using this
      · have := ih _ h
        cases rd with
        | nil => simpa [sys_read, warn] using this
        | cons o rrest => cases o <;> simpa [sys_read, warn] using this
      · simp [warn] at h; obtain ⟨_, rfl⟩ := h; simp

theorem sys_read_sel (w : World) (n : Nat) : (sys_read w n).2.2.sel = w.sel := by
  unfold sys_read
  split <;> rfl

theorem wait_ack_total (fuel : Nat) (w : World) (hfuel : w.sel.length < fuel) :
    ∃ r w1, wait_ack fuel w = some (r, w1) := by
  induction fuel generalizing w with
  | zero => omega
  | succ fuel ih =>
    obtain ⟨sel, rd, inp, wr, out, heap, warns, stdout⟩ := w
    cases sel with
    | nil => exact ⟨_, _, by simp [wait_ack, sys_select]; exact ⟨rfl, rfl⟩⟩
    | cons s srest =>
      simp only [List.length_cons] at hfuel
      simp only [wait_ack, sys_select]
      split_ifs
      · exact ⟨_, _, rfl⟩
      · exact ⟨_, _, rfl⟩
      · exact ⟨_, _, rfl⟩
      · exact ih _ (by simp only [warn, sys_read_sel]; omega)
      · exact ih _ (by simp only [warn, sys_read_sel]; omega)
      · exact ⟨_, _, rfl⟩

theorem write_frame_whole (fuel : Nat) (w : World) (x y a : Nat) (wrest : List (Option Nat))
    (hwr : w.wr = some (a + 2) :: wrest) :
    write_frame (fuel + 1) w [x, y] 0 =
      some (some 2, { w with wr := wrest, out := w.out ++ [x, y] }) := by
  obtain ⟨sel, rd, inp, wr, out, heap, warns, stdout⟩ := w
  simp only at hwr
  subst hwr
  simp [write_frame, sys_write]

theorem write_frame_split (fuel : Nat) (w : World) (x y a : Nat) (wrest : List (Option Nat))
    (hwr : w.wr = some 1 :: some (a + 1) :: wrest) :
    write_frame (fuel + 2) w [x, y] 0 =
      some (some 2, { w with wr := wrest, out := w.out ++ [x, y] }) := by
  obtain ⟨sel, rd, inp, wr, out, heap, warns, stdout⟩ := w
  simp only at hwr
  subst hwr
  simp [write_frame, sys_write]

theorem bnot32_char (com : Nat) (hcom : com < 256) : bnot32 com % 256 = 255 - com := by
  unfold bnot32
  omega

theorem write_frame_command (fuel : Nat) (w : World) (com : Nat) (wrest : List (Option Nat))
    (hcom : com < 256)
    (hwr : (∃ a, w.wr = some (a + 2) :: wrest) ∨
      (∃ a, w.wr = some 1 :: some (a + 1) :: wrest))
    (hfuel : 2 ≤ fuel) :
    write_frame fuel w (command_frame com) 0 =
      some (some 2, { w with wr := wrest, out := w.out ++ [com, bnot32 com % 256] }) := by
  obtain ⟨fuel, rfl⟩ : ∃ f, fuel = f + 2 := ⟨fuel - 2, by omega⟩
  have hframe : command_frame com = [com, bnot32 com % 256] := by
    simp [command_frame, Nat.mod_eq_of_lt hcom]
  rw [hframe]
  rcases hwr with ⟨a, h⟩ | ⟨a, h⟩
  · exact write_frame_whole (fuel + 1) w _ _ a wrest h
  · exact write_frame_split fuel w _ _ a wrest h

/-- C2: for an opcode `com` and any schedule of successful writes, each taking
at least one of the remaining bytes (one write of both bytes, or two writes
of one byte each), `send_command` delivers exactly the bytes
`[com, (~com) mod 256]`, once, and then returns the result of one `wait_ack`
run on the link as the writes left it; that wait writes nothing, so a
Timeout is returned with the frame sent once only. -/
theorem send_command_frame_once (com : Nat) (w : World) (wrest : List (Option Nat))
    (fuel : Nat) (hcom : com < 256)
    (hwr : (∃ a, w.wr = some (a + 2) :: wrest) ∨
      (∃ a, w.wr = some 1 :: some (a + 1) :: wrest))
    (hfuel : 2 ≤ fuel) (hsel : w.sel.length < fuel) :
    ∃ r w1, send_command fuel w com = some (r, w1) ∧
      wait_ack fuel { w with wr := wrest, out := w.out ++ [com, bnot32 com % 256] } =
        some (r, w1) ∧
      w1.out = w.out ++ [com, bnot32 com % 256] ∧ w1.wr = wrest ∧
      bnot32 com % 256 = 255 - com ∧
      (∀ srest, w.sel = 0 :: srest → r = kTIME ∧ w1.sel = srest) := by
  obtain ⟨r, w1, hwait⟩ := wait_ack_total fuel
    { w with wr := wrest, out := w.out ++ [com, bnot32 com % 256] } hsel
  have hkeep := wait_ack_keeps_out _ _ _ _ hwait
  refine ⟨r, w1, ?_, hwait, hkeep.1, hkeep.2, bnot32_char com hcom, ?_⟩
  · simp only [send_command, write_frame_command fuel w com wrest hcom hwr hfuel]
    exact hwait
  · intro srest hs
    obtain ⟨fuel, rfl⟩ : ∃ f, fuel = f + 1 := ⟨fuel - 1, by omega⟩
    rw [wait_ack_timeout fuel _ srest (by simpa using hs)] at hwait
    simp only [Option.some.injEq, Prod.mk.injEq] at hwait
    obtain ⟨rfl, rfl⟩ := hwait
    simp

theorem send_command_frame_once_witness :
    ∃ r w1, send_command 2 { World.idle with wr := [some 1, some 1], sel := [0] } 0x31 =
        some (r, w1) ∧
      w1.out = [0x31, 0xCE] ∧ w1.wr = [] ∧ r = kTIME := by
  obtain ⟨r, w1, h, _, hout, hwr, hb, ht⟩ := send_command_frame_once 0x31
    { World.idle with wr := [some 1, some 1], sel := [0] } [] 2 (by decide)
    (Or.inr ⟨0, rfl⟩) (by decide) (by decide)
  refine ⟨r, w1, h, ?_, hwr, (ht [] rfl).1⟩
  rw [hout, hb]
  rfl

/-! ## Reading a fixed number of bytes -/

theorem s_read_loop_timeout (caps : List Nat) (fuel : Nat) (w : World) (n : Nat)
    (buf : List Nat) (srest : List Int) (rrest : List (Option Nat))
    (hsel : w.sel = List.replicate caps.length 1 ++ 0 :: srest)
    (hrd : w.rd = caps.map some ++ rrest)
    (hlt : buf.length + (w.inp.take caps.sum).length < n)
    (hfuel : caps.length < fuel) :
    s_read_loop fuel w n buf =
      some (kTIME, buf ++ w.inp.take caps.sum,
        { w with sel := srest, rd := rrest, inp := w.inp.drop caps.sum }) := by
  induction caps generalizing fuel w buf with
  | nil =>
    obtain ⟨fuel, rfl⟩ : ∃ f, fuel = f + 1 := ⟨fuel - 1, by simp at hfuel; omega⟩
    obtain ⟨sel, rd, inp, wr, out, heap, warns, stdout⟩ := w
    simp only [List.length_nil, List.replicate_zero, List.nil_append, List.map_nil] at hsel hrd
    subst hsel hrd
    simp [s_read_loop, sys_select]
  | cons k caps ih =>
    obtain ⟨fuel, rfl⟩ : ∃ f, fuel = f + 1 := ⟨fuel - 1, by simp at hfuel; omega⟩
    obtain ⟨sel, rd, inp, wr, out, heap, warns, stdout⟩ := w
    simp only [List.length_cons, List.replicate_succ, List.cons_append, List.map_cons,
      List.sum_cons, List.length_take] at hsel hrd hlt hfuel
    subst hsel hrd
    have htake : inp.take (min k (n - buf.length)) = inp.take k := by
      by_cases hk : k ≤ n - buf.length
      · rw [Nat.min_eq_left hk]
      · have h1 : inp.length ≤ n - buf.length := by omega
        rw [Nat.min_eq_right (by omega), List.take_of_length_le h1,
          List.take_of_length_le (by omega)]
    have hdrop : inp.drop (min k (n - buf.length)) = inp.drop k := by
      by_cases hk : k ≤ n - buf.length
      · rw [Nat.min_eq_left hk]
      · have h1 : inp.length ≤ n - buf.length := by omega
        rw [Nat.min_eq_right (by omega), List.drop_of_length_le h1,
          List.drop_of_length_le (by omega)]
    have hshort : (buf ++ inp.take k).length < n := by
      simp only [List.length_append, List.length_take]
      omega
    rw [s_read_loop]
    simp only [sys_select, sys_read, htake, hdrop]
    rw [if_neg (by decide), if_neg (by simp), if_neg (by omega), if_pos hshort]
    rw [ih fuel _ (buf ++ inp.take k) rfl rfl
      (by simp only [List.length_append, List.length_take, List.length_drop]; omega)
      (by omega)]
    simp [List.take_add, List.drop_drop, Nat.add_comm]

theorem s_read_loop_success (fuel : Nat) (w w1 : World) (n : Nat) (buf0 buf : List Nat)
    (hle : buf0.length ≤ n)
    (h : s_read_loop fuel w n buf0 = some (0, buf, w1)) :
    buf.length = n ∧ ∃ got, buf = buf0 ++ got ∧ w.inp = got ++ w1.inp := by
  induction fuel generalizing w buf0 with
  | zero => simp [s_read_loop] at h
  | succ fuel ih =>
    rw [s_read_loop] at h
    simp only at h
    split_ifs at h with h0 h1 h2 h3
    · simp [kTIME] at h
    · simp [kERR] at h
    · simp [kERR] at h
    · obtain ⟨sel, rd, inp, wr, out, heap, warns, stdout⟩ := w
      cases sel with
      | nil => simp [sys_select] at h1
      | cons s srest =>
        cases rd with
        | nil => simp [sys_select, sys_read] at h2
        | cons o rrest =>
          cases o with
          | none => simp [sys_select, sys_read] at h2
          | some k =>
            simp only [sys_select, sys_read] at h h3
            obtain ⟨hn, got, hbuf, hinp⟩ := ih _ _ (Nat.le_of_lt h3) h
            refine ⟨hn, inp.take (min k (n - buf0.length)) ++ got, ?_, ?_⟩
            · rw [hbuf, List.append_assoc]
            · simp only at hinp
              rw [List.append_assoc, ← hinp, List.take_append_drop]
    · obtain ⟨sel, rd, inp, wr, out, heap, warns, stdout⟩ := w
      cases sel with
      | nil => simp [sys_select] at h1
      | cons s srest =>
        cases rd with
        | nil => simp [sys_select, sys_read] at h2
        | cons o rrest =>
          cases o with
          | none => simp [sys_select, sys_read] at h2
          | some k =>
            simp only [sys_select, sys_read, Option.some.injEq, Prod.mk.injEq, true_and]
              at h h3
            obtain ⟨rfl, rfl⟩ := h
            refine ⟨?_, inp.take (min k (n - buf0.length)), rfl, ?_⟩
            · simp only [List.length_append, List.length_take] at h3 ⊢
              omega
            · simp

/-- C5: for a requested length `n ≥ 1`, if the first readiness waits report
ready and their reads succeed but deliver fewer than `n` bytes in total, and
the next readiness wait reports nothing ready, `s_read` returns kTIME although
bytes were already stored; and whenever `s_read` returns 0 the bytes it read
number exactly `n` and are the next `n` bytes of the input. -/
theorem s_read_chunk_timeout (n : Nat) (w : World) (fuel : Nat) (hn : 1 ≤ n) :
    (∀ (caps : List Nat) (srest : List Int) (rrest : List (Option Nat)),
      w.sel = List.replicate caps.length 1 ++ 0 :: srest →
      w.rd = caps.map some ++ rrest →
      (w.inp.take caps.sum).length < n →
      caps.length < fuel →
      s_read fuel w n =
        some (kTIME, w.inp.take caps.sum,
          { w with sel := srest, rd := rrest, inp := w.inp.drop caps.sum })) ∧
    (∀ (buf : List Nat) (w1 : World), s_read fuel w n = some (0, buf, w1) →
      buf.length = n ∧ w.inp = buf ++ w1.inp) := by
  have _ := hn
  constructor
  · intro caps srest rrest hsel hrd hlt hfuel
    have h := s_read_loop_timeout caps fuel w n [] srest rrest hsel hrd (by simpa using hlt)
      hfuel
    simpa [s_read] using h
  · intro buf w1 h
    obtain ⟨hlen, got, hbuf, hinp⟩ := s_read_loop_success fuel w w1 n [] buf (by simp) h
    simp only [List.nil_append] at hbuf
    subst hbuf
    exact ⟨hlen, hinp⟩

theorem s_read_chunk_timeout_witness :
    s_read 2 { World.idle with sel := [1, 0], rd := [some 2], inp := [0xAA, 0xBB] } 4 =
      some (kTIME, [0xAA, 0xBB], World.idle) := by
  have h := (s_read_chunk_timeout 4
    { World.idle with sel := [1, 0], rd := [some 2], inp := [0xAA, 0xBB] } 2 (by decide)).1
    [2] [] [] rfl rfl (by decide) (by decide)
  simpa [World.idle] using h

/-! ## Return values of the commands -/

/-- C6: when the device answers the opcode with 0x1F (Nack), each of the
seven commands warns, stops and returns `ret - 1 = 0`, the very value it
returns after a fully acknowledged run; `get_version` returns -2 when the wait
times out. -/
theorem commands_return_zero_on_nack :
    (get_version 1 { World.idle with
          wr := [some 2], sel := [1], rd := [some 1], inp := [0x1F] }
      = some (0, { World.idle with out := [0x01, 0xFE], warns := [Warn.send_command] })) ∧
    (get_version 1 { World.idle with
          wr := [some 2], sel := [1, 1, 1], rd := [some 1, some 3, some 1],
          inp := [0x79, 0x22, 0x00, 0x00, 0x79] }
      = some (0, { World.idle with
          out := [0x01, 0xFE], stdout := [Report.getv (some 0x22) (some 0) (some 0)] })) ∧
    (get_version 1 { World.idle with wr := [some 2], sel := [0] }
      = some (-2, { World.idle with out := [0x01, 0xFE], warns := [Warn.send_command] })) ∧
    (get_commands 1 { World.idle with
          wr := [some 2], sel := [1], rd := [some 1], inp := [0x1F] }
      = some (0, { World.idle with
          out := [0x00, 0xFF], warns := [Warn.send_command_returned 1] })) ∧
    (get_id 1 { World.idle with wr := [some 2], sel := [1], rd := [some 1], inp := [0x1F] }
      = some (0, { World.idle with out := [0x02, 0xFD], warns := [Warn.send_command] })) ∧
    (get_id 1 { World.idle with
          wr := [some 2], sel := [1, 1, 1, 1], rd := [some 1, some 1, some 3, some 1],
          inp := [0x79, 0x02, 0x04, 0x41, 0x00, 0x79], heap := [true] }
      = some (0, { World.idle with
          out := [0x02, 0xFD], stdout := [Report.get_id (some 0x04) [some 0x41, some 0x00]] })) ∧
    (∀ addr : Nat,
      cmd_go 1 { World.idle with wr := [some 2], sel := [1], rd := [some 1], inp := [0x1F] }
          addr
        = some (0, { World.idle with
          out := [0x21, 0xDE], warns := [Warn.send_command_returned 1] }) ∧
      cmd_go 1 { World.idle with wr := [some 2], sel := [1], rd := [some 1], inp := [0x79] }
          addr
        = some (0, { World.idle with out := [0x21, 0xDE] }) ∧
      cmd_read_mem 1 { World.idle with
          wr := [some 2], sel := [1], rd := [some 1], inp := [0x1F] } addr
        = some (0, { World.idle with
          out := [0x11, 0xEE], warns := [Warn.send_command_returned 1] })) ∧
    (∀ (addr len : Nat) (data : List Nat),
      cmd_write_mem 1 { World.idle with
          wr := [some 2], sel := [1], rd := [some 1], inp := [0x1F] } addr data len
        = some (0, { World.idle with
          out := [0x31, 0xCE], warns := [Warn.send_command_returned 1] }) ∧
      cmd_erase_mem 1 { World.idle with
          wr := [some 2], sel := [1], rd := [some 1], inp := [0x1F] } addr len
        = some (0, { World.idle with
          out := [0x31, 0xCE], warns := [Warn.send_command_returned 1] })) := by
  refine ⟨by decide, by decide, by decide, by decide, by decide, by decide, ?_, ?_⟩
  · intro addr
    unfold cmd_go cmd_read_mem
    exact ⟨by decide, by decide, by decide⟩
  · intro addr len data
    unfold cmd_write_mem cmd_erase_mem
    exact ⟨by decide, by decide⟩

/-! ## The resilient opcode phase -/

/-- C7: with one timed-out wait followed by an acknowledged one and every
write succeeding, `send_command2` delivers the frame `[0x31, 0xCE]` once
only, two bytes in all: its second round calls `write` with no byte left to
send, because `pos` still holds 2. -/
theorem send_command2_no_resend :
    send_command2 2 { World.idle with
          wr := [some 2, some 2], sel := [0, 1], rd := [some 1], inp := [0x79] } 0x31
      = some (0, { World.idle with out := [0x31, 0xCE] }) := by
  decide

/-! ## The GET command -/

/-- C8: after the length byte 2, `get_commands` reads two further bytes, not
three: of the device's `[0x22, 0x00, 0x01]` followed by 0x79 it reports
version 0x22 and the single command 0x00, and the third byte 0x01 is met by
the closing `wait_ack` and logged as a junk byte. -/
theorem get_commands_reads_n_bytes :
    get_commands 2 { World.idle with
          wr := [some 2], sel := [1, 1, 1, 1, 1],
          rd := [some 1, some 1, some 3, some 1, some 1],
          inp := [0x79, 0x02, 0x22, 0x00, 0x01, 0x79], heap := [true] }
      = some (0, { World.idle with
          out := [0x00, 0xFF], warns := [Warn.junk_byte 0x01],
          stdout := [Report.get (some 0x22) [some 0x00]] }) := by
  decide

/-! ## The erase command -/

/-- C9: with the opcode acknowledged, `cmd_erase_mem` has written
`[0x31, 0xCE]`, the WRITE_MEMORY opcode and its complement, and nothing else,
whatever `addr` and `len` are. -/
theorem cmd_erase_mem_writes_write_opcode (addr len : Nat) :
    cmd_erase_mem 1
        { World.idle with
          wr := [some 2, some 2], sel := [1, 1], rd := [some 1, some 1], inp := [0x79, 0x79] }
        addr len
      = some (0, { World.idle with
          wr := [some 2], sel := [1], rd := [some 1], inp := [0x79], out := [0x31, 0xCE] }) := by
  unfold cmd_erase_mem
  decide

/-! ## The handshake after a failed `select` -/

/-- C10: when the `select` of the first wait fails, so that `wait_ack` returns
kERR, `bootloader_init` writes a second SYNC byte, waits again and returns 0
on the acknowledgement that follows. -/
theorem bootloader_init_resends_after_error :
    wait_ack 1 { World.idle with sel := [-1, 1], rd := [some 1], inp := [0x79] }
      = some (kERR, { World.idle with
          sel := [1], rd := [some 1], inp := [0x79], warns := [Warn.select_error] }) ∧
    bootloader_init 2 { World.idle with
          wr := [some 1, some 1], sel := [-1, 1], rd := [some 1], inp := [0x79] }
      = some (0, { World.idle with out := [0x7F, 0x7F], warns := [Warn.select_error] }) := by
  constructor <;> decide

end Stmboot
